import Mathlib

/-!
Shallow embedding of the feed decoder and reconciliation engine of
`scripts/scrape_flashscore.py`.

Python strings are modelled as Lean `String`; all string operations that the
script uses (`str.split`, `str.replace`, `str.title`, `int(...)`, slicing) are
re-implemented here by structural recursion over the underlying character list,
so that every definition evaluates inside the kernel.  The separators used by
the feed format are the single characters `~` (records), `¬` (fields) and `÷`
(key/value), so `str.split(sep)` is always a split on one character.
-/

/-- `chSplitP p l` splits `l` at every character satisfying `p`, keeping empty
segments: the model of Python `s.split(sep)` for a one-character separator
(and of the whitespace split used by `str.split()` before empties are
dropped). -/
def chSplitP (p : Char → Bool) : List Char → List (List Char)
  | [] => [[]]
  | c :: rest =>
    let r := chSplitP p rest
    if p c then [] :: r
    else
      match r with
      | [] => [[c]]
      | h :: t => (c :: h) :: t

/-- Python `s.split(sep)` for a single-character separator `sep`. -/
def pySplit (sep : Char) (s : String) : List String :=
  (chSplitP (fun c => c = sep) s.data).map String.mk

/-- Python `s.split()` (split on whitespace, dropping empty tokens). -/
def pySplitWs (s : String) : List String :=
  ((chSplitP (fun c => c.isWhitespace) s.data).map String.mk).filter (fun w => decide (w ≠ ""))

/-- Python `sep.join(parts)`. -/
def pyJoin (sep : String) : List String → String
  | [] => ""
  | [x] => x
  | x :: y :: t => x ++ sep ++ pyJoin sep (y :: t)

/-- Decimal digits accumulator for `chInt`. -/
def digitsVal : List Char → Nat → Option Nat
  | [], acc => some acc
  | c :: rest, acc => if c.isDigit then digitsVal rest (acc * 10 + (c.toNat - 48)) else none

/-- Integer parse over characters: an optional sign followed by at least one
decimal digit.  This is the behaviour of Python `int(s)` on the value strings
that occur in the feeds (which never carry surrounding whitespace or
underscores). -/
def chInt (l : List Char) : Option Int :=
  match l with
  | '-' :: rest => if rest = [] then none else (digitsVal rest 0).map (fun n => -(n : Int))
  | '+' :: rest => if rest = [] then none else (digitsVal rest 0).map (fun n => (n : Int))
  | _ => if l = [] then none else (digitsVal l 0).map (fun n => (n : Int))

/-- `_int` from the script: safe int parse, `none` for empty/invalid input
(Python returns `None` after catching `ValueError`/`TypeError`). -/
def pyInt (s : String) : Option Int := chInt s.data

/-- Python `dict` assignment `d[k] = v` on an insertion-ordered association
list: an existing key keeps its position and gets the new value, a new key is
appended at the end. -/
def dinsert {α : Type} (l : List (String × α)) (k : String) (v : α) : List (String × α) :=
  if l.any (fun p => decide (p.1 = k)) then l.map (fun p => if p.1 = k then (k, v) else p)
  else l ++ [(k, v)]

/-- Python `d.get(k)` / `d[k]` on such an association list. -/
def dlookup {α : Type} (l : List (String × α)) (k : String) : Option α :=
  (l.find? (fun p => decide (p.1 = k))).map (fun p => p.2)

/-- Python `d.get(k, dflt)` for string values. -/
def dgetD (d : List (String × String)) (k dflt : String) : String :=
  (dlookup d k).getD dflt

/-- Python `d.get(k1, d.get(k2, ""))`, the two-key fallback read used for team
and athlete names. -/
def dget2 (d : List (String × String)) (k1 k2 : String) : String :=
  match dlookup d k1 with
  | some v => v
  | none => dgetD d k2 ""

/-- Splits one field token at the FIRST `÷` into key and value (Python
`field.split("÷", 1)`); `none` when the token does not contain the
separator. -/
def splitKV (field : String) : Option (String × String) :=
  match pySplit '÷' field with
  | [] => none
  | [_] => none
  | k :: v1 :: rest => some (k, pyJoin "÷" (v1 :: rest))

/-- One step of `parse_fields`: a token without the separator is discarded, a
`RAA`/`RAB` token is appended to the matching side-list, any other token is a
scalar-map assignment. -/
def fieldStep (st : List (String × String) × List String × List String) (field : String) :
    List (String × String) × List String × List String :=
  match splitKV field with
  | none => st
  | some (k, v) =>
    if k = "RAA" then (st.1, st.2.1 ++ [v], st.2.2)
    else if k = "RAB" then (st.1, st.2.1, st.2.2 ++ [v])
    else (dinsert st.1 k v, st.2.1, st.2.2)

/-- `parse_fields` from the script: parse a single feed record into the scalar
map plus the `RAA`/`RAB` side-lists. -/
def parse_fields (record : String) : List (String × String) × List String × List String :=
  (pySplit '¬' record).foldl fieldStep ([], [], [])

/-- A field token that contains the key/value separator. -/
def hasSep (field : String) : Bool := (splitKV field).isSome

/-- The key/value pairs of the separator-bearing tokens of a record, in token
order. -/
def sepTokens (record : String) : List (String × String) :=
  (pySplit '¬' record).filterMap splitKV

/-- The separator-bearing tokens that are headed for the scalar map (key is
neither reserved side-list key). -/
def scalarPairs (record : String) : List (String × String) :=
  (sepTokens record).filter (fun p => decide (p.1 ≠ "RAA" ∧ p.1 ≠ "RAB"))

/-- Replace every (left-to-right, non-overlapping) occurrence of the two
characters `p1 p2` by `r`: the model of Python `s.replace(p1+p2, r)` for the
digraph substitutions of `_fix_diacritics`. -/
def replaceDigraph (p1 p2 r : Char) : List Char → List Char
  | [] => []
  | [c] => [c]
  | c1 :: c2 :: rest =>
    if c1 = p1 ∧ c2 = p2 then r :: replaceDigraph p1 p2 r rest
    else c1 :: replaceDigraph p1 p2 r (c2 :: rest)

/-- `_fix_diacritics` from the script, applying the six replacements in the
source's order: `oe`, `Oe`, `ae`, `Ae`, `ue`, `Ue`. -/
def fix_diacritics (s : String) : String :=
  String.mk
    (replaceDigraph 'U' 'e' 'Ü'
      (replaceDigraph 'u' 'e' 'ü'
        (replaceDigraph 'A' 'e' 'Ä'
          (replaceDigraph 'a' 'e' 'ä'
            (replaceDigraph 'O' 'e' 'Ö'
              (replaceDigraph 'o' 'e' 'ö' s.data))))))

/-- Cased characters of the repertoire reachable here: ASCII letters plus the
six diacritic letters that `fix_diacritics` can introduce.  (Python `str.title`
works on all of Unicode; the feeds only contain this alphabet.) -/
def isCasedCh (c : Char) : Bool :=
  c.isAlpha || c ∈ ['ö', 'ä', 'ü', 'Ö', 'Ä', 'Ü']

/-- Uppercase over the same repertoire. -/
def upCh (c : Char) : Char :=
  if c = 'ö' then 'Ö' else if c = 'ä' then 'Ä' else if c = 'ü' then 'Ü' else c.toUpper

/-- Lowercase over the same repertoire. -/
def loCh (c : Char) : Char :=
  if c = 'Ö' then 'ö' else if c = 'Ä' then 'ä' else if c = 'Ü' then 'ü' else c.toLower

/-- Worker for `pyTitle`; the boolean records whether the previous character
was cased. -/
def titleGo : Bool → List Char → List Char
  | _, [] => []
  | prevCased, c :: rest =>
    if isCasedCh c then (if prevCased then loCh c else upCh c) :: titleGo true rest
    else c :: titleGo false rest

/-- Python `s.title()`: a cased character following a non-cased one is
uppercased, every other cased character is lowercased. -/
def pyTitle (s : String) : String := String.mk (titleGo false s.data)

/-- A word of the abbreviated label that counts as an initial: length at most
3 and ending in a period (`"J."`, `"H."`). -/
def isInitialWord (w : String) : Bool :=
  decide (w.data.length ≤ 3) &&
    (match w.data.reverse with
     | '.' :: _ => true
     | _ => false)

/-- Number of initials detected in an abbreviated label (the generator
expression inside `_full_name`). -/
def count_initials (ae : String) : Nat :=
  ((pySplitWs ae).filter isInitialWord).length

/-- Diacritic-restored, title-cased slug segment:
`_fix_diacritics(p).title()`. -/
def titledSeg (p : String) : String := pyTitle (fix_diacritics p)

/-- `_full_name` from the script: reconstruct a display name from the
abbreviated label `ae` and the hyphen-joined slug `wu`. -/
def full_name (ae wu : String) : String :=
  if wu = "" ∨ ae = "" then (if ae = "" then ae else fix_diacritics ae)
  else
    let parts := pySplit '-' wu
    if parts.length < 2 then fix_diacritics ae
    else
      let initials := count_initials ae
      if initials = 0 then fix_diacritics ae
      else
        let nGiven := min initials (parts.length - 1)
        let surname := pyJoin " " ((parts.take (parts.length - nGiven)).map titledSeg)
        let given := pyJoin " " ((parts.drop (parts.length - nGiven)).map titledSeg)
        if given = "" then surname else given ++ " " ++ surname

/-- `_clean_team` from the script: strip the trailing `" D"` gender suffix
(`"Finland D"` becomes `"Finland"`, via Python `name[:-2]`). -/
def clean_team (name : String) : String :=
  if (match name.data.reverse with
      | 'D' :: ' ' :: _ => true
      | _ => false) then
    String.mk (name.data.take (name.data.length - 2))
  else name

/-- Status mapping of the team decoder: code `"3"` is finished, `"2"` is live,
anything else is scheduled. -/
def status_of (code : String) : String :=
  if code = "3" then "finished" else if code = "2" then "live" else "scheduled"

/-- A configured feed entry: the sport and event labels that the decoders copy
into every entity (the feed id and kind select the feed and decoder and play
no role inside a decode). -/
structure FeedEntry where
  sport : String
  event : String
deriving DecidableEq

/-- A decoded team match (the `"type": "team"` dictionaries of the script). -/
structure TeamMatch where
  sport : String
  event : String
  event_id : String
  home : String
  away : String
  home_score : Option Int
  away_score : Option Int
  status : String
  timestamp : Option Int
  periods : String
deriving DecidableEq

/-- One period column `"h-a"`: `none` when both halves are absent, otherwise
a missing half is replaced by `"0"`. -/
def periodPair (d : List (String × String)) (hk ak : String) : Option String :=
  let h := dgetD d hk ""
  let a := dgetD d ak ""
  if h = "" ∧ a = "" then none
  else some ((if h = "" then "0" else h) ++ "-" ++ (if a = "" then "0" else a))

/-- The comma-joined periods summary built from the three fixed key pairs
`BA/BB`, `BC/BD`, `BE/BF`. -/
def periodsStr (d : List (String × String)) : String :=
  let ps := [periodPair d "BA" "BB", periodPair d "BC" "BD", periodPair d "BE" "BF"].filterMap id
  if ps = [] then "" else pyJoin ", " ps

/-- The match dictionary built from one record of a team feed (before the
away-team fallback to the next record). -/
def teamRecordMatch (entry : FeedEntry) (d : List (String × String)) : TeamMatch :=
  { sport := entry.sport
    event := entry.event
    event_id := dgetD d "AA" ""
    home := clean_team (dget2 d "CX" "AE")
    away := clean_team (dget2 d "AF" "FK")
    home_score := pyInt (dgetD d "AG" "")
    away_score := pyInt (dgetD d "AH" "")
    status := status_of (dgetD d "AB" "")
    timestamp := pyInt (dgetD d "AD" "")
    periods := periodsStr d }

/-- The record iteration of `parse_team_feed`: records without the `AA`
match-identifier key are skipped; when the away team is absent from a match
record it is read from the next record, which is then consumed; only finished
matches are emitted. -/
def team_loop (entry : FeedEntry) : List String → List TeamMatch
  | [] => []
  | [rec] =>
    -- A final record: the away-in-next-record fallback finds no next record,
    -- so the away field is left as decoded either way.
    if (dlookup (parse_fields rec).1 "AA").isNone then []
    else
      if (teamRecordMatch entry (parse_fields rec).1).status = "finished" then
        [teamRecordMatch entry (parse_fields rec).1]
      else []
  | rec :: rec2 :: rest2 =>
    if (dlookup (parse_fields rec).1 "AA").isNone then team_loop entry (rec2 :: rest2)
    else
      if (teamRecordMatch entry (parse_fields rec).1).away ≠ "" then
        (if (teamRecordMatch entry (parse_fields rec).1).status = "finished" then
          [teamRecordMatch entry (parse_fields rec).1]
        else []) ++ team_loop entry (rec2 :: rest2)
      else
        -- Away team read from the next record, which is then consumed.
        (if (teamRecordMatch entry (parse_fields rec).1).status = "finished" then
          [{ teamRecordMatch entry (parse_fields rec).1 with
              away := clean_team (dget2 (parse_fields rec2).1 "CX" "AE") }]
        else []) ++ team_loop entry rest2

/-- `parse_team_feed` from the script: the loop starts at index 2, skipping the
two header records. -/
def parse_team_feed (data : String) (entry : FeedEntry) : List TeamMatch :=
  team_loop entry ((pySplit '~' data).drop 2)

/-- Swedish country names used by flashscore.se (`SWE_COUNTRIES`). -/
def SWE_COUNTRIES : List String := ["Sverige", "sweden"]

/-- Minimum timestamp for OS 2026 matches (`MIN_TIMESTAMP`). -/
def MIN_TIMESTAMP : Int := 1769904000

/-- An athlete dictionary as built inside `parse_individual_feed`, including
the internal `_wu` helper field that is stripped before output.  `pos` is
`Option Int` because Python stores `_int(pos)` there, which is `None` for a
non-empty non-numeric position string; an optional metric field is `none`
exactly when the corresponding dictionary key is absent.  `penalties` is
doubly optional: the key is present whenever the raw string is truthy, with
value `_int` of it (possibly `None`). -/
structure Athlete where
  pos : Option Int
  name : String
  country : String
  wu : String
  time : Option String
  diff : Option String
  dist : Option String
  dist_pts : Option String
  style_pts : Option String
  best_dist : Option String
  best_pts : Option String
  penalties : Option (Option Int)
deriving DecidableEq

/-- An output result row: an athlete dictionary after `a.pop("_wu")`. -/
structure ResultRow where
  pos : Option Int
  name : String
  country : String
  time : Option String
  diff : Option String
  dist : Option String
  dist_pts : Option String
  style_pts : Option String
  best_dist : Option String
  best_pts : Option String
  penalties : Option (Option Int)
deriving DecidableEq

/-- Strip the internal `_wu` helper field. -/
def toRow (a : Athlete) : ResultRow :=
  { pos := a.pos, name := a.name, country := a.country, time := a.time, diff := a.diff
    dist := a.dist, dist_pts := a.dist_pts, style_pts := a.style_pts
    best_dist := a.best_dist, best_pts := a.best_pts, penalties := a.penalties }

/-- A decoded individual-event result (the `"type": "individual"`
dictionaries). -/
structure IndividualResult where
  sport : String
  event : String
  status : String
  timestamp : Option Int
  results : List ResultRow
deriving DecidableEq

/-- A Swedish-athletes entry of a start list (`name`/`country` only). -/
structure SweAthlete where
  name : String
  country : String
deriving DecidableEq

/-- A full start-list entry (`name`/`country`/`bib`). -/
structure StartAthlete where
  name : String
  country : String
  bib : Option Int
deriving DecidableEq

/-- A decoded start list (the `"type": "startlist"` dictionaries). -/
structure StartList where
  sport : String
  event : String
  total : Nat
  swe_athletes : List SweAthlete
  athletes : List StartAthlete
deriving DecidableEq

/-- The tagged union of persisted entities; the constructor is the `"type"`
discriminator of the flat dictionaries. -/
inductive Entity where
  | team : TeamMatch → Entity
  | individual : IndividualResult → Entity
  | startlist : StartList → Entity
deriving DecidableEq

deriving instance DecidableEq for Except

/-- Scan state of `parse_individual_feed` over the records. -/
structure IndState where
  athletes : List Athlete
  hasFinished : Bool
  eventTs : Option Int
  currentRound : Option String
  heatTimes : List (String × String)
deriving DecidableEq

/-- Initial scan state. -/
def initIndState : IndState := ⟨[], false, none, none, []⟩

/-- The event-timestamp update `if ad and (event_timestamp is None or
ad > event_timestamp)`: a zero value is falsy and ignored. -/
def tsUpd (cur : Option Int) (v : Int) : Option Int :=
  match cur with
  | none => if v ≠ 0 then some v else none
  | some t => if v ≠ 0 ∧ t < v then some v else some t

/-- Python `dict(zip(raa, rab)).get(k)`: for a duplicated key the LAST pair
wins, so the lookup searches the reversed pair list. -/
def raGet (pairs : List (String × String)) (k : String) : Option String :=
  (pairs.reverse.find? (fun p => decide (p.1 = k))).map (fun p => p.2)

/-- Truthiness of an optional string (`if ra.get(k):`): `none` or the empty
string are falsy. -/
def truthyOpt : Option String → Option String
  | some s => if s = "" then none else some s
  | none => none

/-- The athlete dictionary built for one totals-round row. -/
def mkAthlete (d ra : List (String × String)) : Athlete :=
  let posS := (raGet ra "7").getD ""
  { pos := if posS ≠ "" then pyInt posS else some 999
    name := full_name (dgetD d "AE" "") (dgetD d "WU" "")
    country := dgetD d "FU" ""
    wu := dget2 d "WU" "AE"
    time := truthyOpt (raGet ra "5")
    diff := truthyOpt (raGet ra "6")
    dist := truthyOpt (raGet ra "2")
    dist_pts := truthyOpt (raGet ra "3")
    style_pts := truthyOpt (raGet ra "4")
    best_dist := truthyOpt (raGet ra "12")
    best_pts := truthyOpt (raGet ra "13")
    penalties :=
      match truthyOpt (raGet ra "9") with
      | some s => some (pyInt s)
      | none =>
        match truthyOpt (raGet ra "10") with
        | some s => some (pyInt s)
        | none => none }

/-- The event-timestamp tracking step `if ad and (...): event_timestamp = ad`
applied to the scan state. -/
def tsTrack (st : IndState) (ad : Option Int) : IndState :=
  match ad with
  | some v => { st with eventTs := tsUpd st.eventTs v }
  | none => st

/-- The round-dependent part of one scan step: a non-`Totalt` round record
only contributes a heat-time fallback (first value wins per athlete id); a
totals record contributes an athlete row and the finished flag. -/
def indRowStep (st1 : IndState) (d ra : List (String × String)) : IndState :=
  if st1.currentRound ≠ none ∧ st1.currentRound ≠ some "Totalt" then
    match truthyOpt (raGet ra "5") with
    | some t5 =>
      if (dlookup st1.heatTimes (dget2 d "WU" "AE")).isNone then
        { st1 with heatTimes := st1.heatTimes ++ [(dget2 d "WU" "AE", t5)] }
      else st1
    | none => st1
  else
    { st1 with
      hasFinished := st1.hasFinished || decide (dlookup d "AB" = some "3")
      athletes := st1.athletes ++ [mkAthlete d ra] }

/-- One record step of the `parse_individual_feed` scan: a `ZAE` header sets
the current round; records without `AE` are skipped; the event timestamp is
tracked from `AD` before the round split; then the round-dependent part
runs. -/
def indStep (st : IndState) (rec : String) : IndState :=
  let parsed := parse_fields rec
  let d := parsed.1
  match dlookup d "ZAE" with
  | some z => { st with currentRound := some z }
  | none =>
    if (dlookup d "AE").isNone then st
    else indRowStep (tsTrack st (pyInt (dgetD d "AD" ""))) d (parsed.2.1.zip parsed.2.2)

/-- The full scan of `parse_individual_feed` over `records[1:]`. -/
def indScan (data : String) : IndState :=
  ((pySplit '~' data).drop 1).foldl indStep initIndState

/-- Backfill a missing time from the heat-round fallback table, matched by the
per-athlete `_wu` identifier. -/
def heatFill (ht : List (String × String)) (a : Athlete) : Athlete :=
  if a.time = none ∧ (dlookup ht a.wu).isSome then { a with time := dlookup ht a.wu } else a

/-- The athlete list after the heat-time backfill (`if heat_times:` guard kept
from the source; an empty table makes the fill a no-op either way). -/
def indAthletes (data : String) : List Athlete :=
  let st := indScan data
  if st.heatTimes = [] then st.athletes else st.athletes.map (heatFill st.heatTimes)

/-- The integer sort key `x["pos"]`; inside the decoder it is only reached
after every position has been checked to be an actual integer, where
`getD 999` is the identity on the stored value. -/
def posKey (a : Athlete) : Int := a.pos.getD 999

/-- Stable insertion of an element into a position-sorted list: the new
element goes after every element whose key is less than or equal to its own,
exactly the relative order a stable sort (Python Timsort) produces. -/
def insByPos (x : Athlete) : List Athlete → List Athlete
  | [] => [x]
  | y :: ys => if posKey x < posKey y then x :: y :: ys else y :: insByPos x ys

/-- `athletes.sort(key=lambda x: x["pos"])`: a stable sort by position; since
stable sorts by the same key agree on all inputs, this insertion sort computes
the same list as Python Timsort. -/
def sortByPos (l : List Athlete) : List Athlete :=
  l.foldl (fun acc x => insByPos x acc) []

/-- The podium filter `[a for a in athletes if a["pos"] <= 3]`, taken from the
sorted athlete list. -/
def podiumOf (data : String) : List Athlete :=
  (sortByPos (indAthletes data)).filter (fun a => decide (posKey a ≤ 3))

/-- The home-federation filter `[a for a in athletes if a["country"] in
SWE_COUNTRIES]`, taken from the sorted athlete list. -/
def sweOf (data : String) : List Athlete :=
  (sortByPos (indAthletes data)).filter (fun a => decide (a.country ∈ SWE_COUNTRIES))

/-- The de-duplication key actually used by the source:
`key = a["name"] + a["country"]` (string concatenation, not the pair). -/
def ckey (a : Athlete) : String := a.name ++ a.country

/-- First-occurrence de-duplication by `ckey` with a seen set. -/
def dedupGo (seen : List String) : List Athlete → List Athlete
  | [] => []
  | a :: rest => if ckey a ∈ seen then dedupGo seen rest else a :: dedupGo (ckey a :: seen) rest

/-- The `seen`-set merge loop of the decoder over `podium + swe`. -/
def dedupConcat (l : List Athlete) : List Athlete := dedupGo [] l

/-- De-duplication by the (name, country) PAIR — the reading the claim text
uses; defined only to compare against the concatenation key of the source. -/
def dedupPairGo (seen : List (String × String)) : List Athlete → List Athlete
  | [] => []
  | a :: rest =>
    if (a.name, a.country) ∈ seen then dedupPairGo seen rest
    else a :: dedupPairGo ((a.name, a.country) :: seen) rest

/-- Pair-keyed variant of `dedupConcat` (spec reading, for comparison). -/
def dedupPair (l : List Athlete) : List Athlete := dedupPairGo [] l

/-- The stale-data guard `event_timestamp and event_timestamp < MIN_TIMESTAMP`
(a `None` or zero timestamp is falsy and skips the guard). -/
def staleTs : Option Int → Bool
  | some t => decide (t ≠ 0 ∧ t < MIN_TIMESTAMP)
  | none => false

/-- `parse_individual_feed` from the script.  `Except Unit` models exception
propagation: `.error ()` is the `TypeError` Python raises while sorting or
while evaluating `a["pos"] <= 3` when some athlete's position is `None` (an
athlete list containing such a position always raises there, since the podium
comprehension compares every element); `.ok none` is Python `None`. -/
def parse_individual_feed (data : String) (entry : FeedEntry) : Except Unit (Option Entity) :=
  if ¬(indScan data).hasFinished ∨ indAthletes data = [] then .ok none
  else if staleTs (indScan data).eventTs then .ok none
  else if (indAthletes data).any (fun a => a.pos.isNone) then .error ()
  else if sortByPos (dedupConcat (podiumOf data ++ sweOf data)) = [] then .ok none
  else
    .ok (some (.individual
      { sport := entry.sport, event := entry.event, status := "finished"
        timestamp := (indScan data).eventTs
        results := (sortByPos (dedupConcat (podiumOf data ++ sweOf data))).map toRow }))

/-- Scan state of `parse_start_list`. -/
structure SLState where
  athletes : List StartAthlete
  hasScheduled : Bool
  currentRound : Option String
deriving DecidableEq

/-- One record step of the `parse_start_list` scan: same round scoping as the
individual decoder, triggering on the scheduled status code `"1"` and keeping
only name, country and bib. -/
def slStep (st : SLState) (rec : String) : SLState :=
  let parsed := parse_fields rec
  let d := parsed.1
  match dlookup d "ZAE" with
  | some z => { st with currentRound := some z }
  | none =>
    if (dlookup d "AE").isNone then st
    else if st.currentRound ≠ none ∧ st.currentRound ≠ some "Totalt" then st
    else
      let ra := parsed.2.1.zip parsed.2.2
      let bib := (raGet ra "7").getD ""
      { st with
        hasScheduled := st.hasScheduled || decide (dlookup d "AB" = some "1")
        athletes := st.athletes ++
          [{ name := full_name (dgetD d "AE" "") (dgetD d "WU" "")
             country := dgetD d "FU" ""
             bib := if bib ≠ "" then pyInt bib else none }] }

/-- `parse_start_list` from the script. -/
def parse_start_list (data : String) (entry : FeedEntry) : Option Entity :=
  let st := ((pySplit '~' data).drop 1).foldl slStep ⟨[], false, none⟩
  if ¬st.hasScheduled ∨ st.athletes = [] then none
  else
    let swe := st.athletes.filter (fun a => decide (a.country ∈ SWE_COUNTRIES))
    some (.startlist
      { sport := entry.sport, event := entry.event, total := st.athletes.length
        swe_athletes := swe.map (fun a => { name := a.name, country := a.country })
        athletes := st.athletes })

/-- `_match_key` from the script: the derived key used to merge an entity
across runs. -/
def match_key : Entity → String
  | .team t => t.sport ++ ":" ++ t.event ++ ":" ++ t.home ++ "-" ++ t.away
  | .individual r => r.sport ++ ":" ++ r.event
  | .startlist s => s.sport ++ ":" ++ s.event

/-- `new_keys = {_match_key(m) for m in matches}` (only membership is ever
used, so the list stands in for the set). -/
def new_keys (batch : List Entity) : List String := batch.map match_key

/-- One step of the seeding loop of `write_if_changed`: a previous entry whose
key was attempted but is not among the new keys is dropped, every other entry
is assigned into the merged dictionary.  The `attempted ≠ []` conjunct is the
Python truthiness test `if attempted_keys and ...` (a `None` or empty
attempted set disables dropping; both are falsy, so one list parameter models
the `set[str] | None` argument). -/
def seedStep (attempted nk : List String) (acc : List (String × Entity)) (m : Entity) :
    List (String × Entity) :=
  if attempted ≠ [] ∧ match_key m ∈ attempted ∧ match_key m ∉ nk then acc
  else dinsert acc (match_key m) m

/-- The merged dictionary of `write_if_changed`: seed from `previous` (with
the stale-drop rule), then overlay every batch entity keyed by its derived
key. -/
def mergedDict (previous batch : List Entity) (attempted : List String) :
    List (String × Entity) :=
  batch.foldl (fun acc m => dinsert acc (match_key m) m)
    (previous.foldl (seedStep attempted (new_keys batch)) [])

/-- `merged_list = list(merged.values())`. -/
def mergedList (previous batch : List Entity) (attempted : List String) : List Entity :=
  (mergedDict previous batch attempted).map (fun p => p.2)

/-- Outcome of `write_if_changed`: the boolean it returns, and the entity list
written to the output file (`none` when no write happens; the fresh
`scraped_at` wall-clock stamp of the written object is outside the model). -/
structure WriteResult where
  changed : Bool
  toWrite : Option (List Entity)
deriving DecidableEq

/-- `write_if_changed` from the script: keep everything when the batch is
empty but previous data exists; otherwise merge and write exactly when the
merged value list differs from the previous list. -/
def write_if_changed (previous batch : List Entity) (attempted : List String) : WriteResult :=
  if batch = [] ∧ previous ≠ [] then ⟨false, none⟩
  else
    let ml := mergedList previous batch attempted
    if ml = previous then ⟨false, none⟩ else ⟨true, some ml⟩

/-- The parsed `AD` timestamp of a record, when the record is one the
individual-feed scan reads a timestamp from: not a `ZAE` header, carries `AE`,
and `AD` parses to a truthy (nonzero) integer. -/
def eligTsOf (rec : String) : Option Int :=
  if (dlookup (parse_fields rec).1 "ZAE").isSome then none
  else if (dlookup (parse_fields rec).1 "AE").isNone then none
  else
    match pyInt (dgetD (parse_fields rec).1 "AD" "") with
    | some v => if v ≠ 0 then some v else none
    | none => none

/-- All timestamps the individual-feed scan sees over `records[1:]`. -/
def eligTimestamps (data : String) : List Int :=
  ((pySplit '~' data).drop 1).filterMap eligTsOf

/-- The reconstruction formula described by the spec text for the initials
case: given name (last slug segments) then surname (leading segments), joined
with a single space — with no special case for an empty given part. -/
def specName (ae wu : String) : String :=
  let parts := pySplit '-' wu
  let n := min (count_initials ae) (parts.length - 1)
  pyJoin " " ((parts.drop (parts.length - n)).map titledSeg) ++ " " ++
    pyJoin " " ((parts.take (parts.length - n)).map titledSeg)

/-- `specName` amended by the one case the source adds: when the given-name
part joins to the empty string, the surname alone is returned. -/
def specNameAmended (ae wu : String) : String :=
  let parts := pySplit '-' wu
  let n := min (count_initials ae) (parts.length - 1)
  let given := pyJoin " " ((parts.drop (parts.length - n)).map titledSeg)
  let surname := pyJoin " " ((parts.take (parts.length - n)).map titledSeg)
  if given = "" then surname else given ++ " " ++ surname

/-- Concrete team matches for the reconciliation examples. -/
def entA : Entity :=
  .team { sport := "Ishockey", event := "Herrar", event_id := "1", home := "Finland"
          away := "Sverige", home_score := some 2, away_score := some 1
          status := "finished", timestamp := none, periods := "" }

/-- `entA` with a different score: same derived key, different value. -/
def entA2 : Entity :=
  .team { sport := "Ishockey", event := "Herrar", event_id := "1", home := "Finland"
          away := "Sverige", home_score := some 3, away_score := some 1
          status := "finished", timestamp := none, periods := "" }

/-- A second match with a different derived key. -/
def entB : Entity :=
  .team { sport := "Ishockey", event := "Herrar", event_id := "2", home := "Tre Kronor"
          away := "USA", home_score := some 4, away_score := some 0
          status := "finished", timestamp := none, periods := "" }

/-- Concrete team-feed payload: two header records, then one finished match
record with a gendered home name. -/
def exTeamData : String := "a~b~AA÷1¬AB÷3¬AE÷Finland D¬AF÷Sweden¬AG÷2¬AH÷1"

/-- Feed entry used by the concrete examples. -/
def exEntry : FeedEntry := { sport := "Ishockey", event := "Herrar" }

/-- The match decoded from `exTeamData`. -/
def exTeamMatch : TeamMatch :=
  { sport := "Ishockey", event := "Herrar", event_id := "1", home := "Finland"
    away := "Sweden", home_score := some 2, away_score := some 1
    status := "finished", timestamp := none, periods := "" }

/-- Individual-feed payload whose only timestamp predates `MIN_TIMESTAMP`,
with an otherwise valid finished row. -/
def exStaleData : String := "h~AE÷Anna¬AB÷3¬AD÷100¬RAA÷7¬RAB÷1"

/-- Individual-feed payload with a fresh timestamp and one finished row. -/
def exFreshData : String := "h~AE÷Anna¬AB÷3¬AD÷1769904001¬RAA÷7¬RAB÷1"

/-- The row decoded from `exFreshData`. -/
def exFreshRow : ResultRow :=
  { pos := some 1, name := "Anna", country := "", time := none, diff := none, dist := none
    dist_pts := none, style_pts := none, best_dist := none, best_pts := none
    penalties := none }

/-- Entry for the individual-feed examples. -/
def exIndEntry : FeedEntry := { sport := "Alpint", event := "Test" }

/-- Payload where a podium athlete and a Swedish athlete have different
(name, country) pairs but the same concatenated de-duplication key:
`"XSverige" ++ "" = "X" ++ "Sverige"`. -/
def exCollideData : String := "h~AE÷XSverige¬AB÷3¬RAA÷7¬RAB÷1~AE÷X¬FU÷Sverige¬RAA÷7¬RAB÷5"

/-- Payload whose second record carries a non-empty, non-numeric position
value, making `athlete["pos"]` the Python value `None`. -/
def exBadPosData : String := "h~AE÷A¬AB÷3¬RAA÷7¬RAB÷x"

/-- The entity decoded from `exFreshData`. -/
def exFreshResult : IndividualResult :=
  { sport := "Alpint", event := "Test", status := "finished"
    timestamp := some 1769904001, results := [exFreshRow] }

/-- The entity decoded from `exCollideData`: only the podium athlete survives
the concatenation-keyed merge. -/
def exCollideResult : IndividualResult :=
  { sport := "Alpint", event := "Test", status := "finished", timestamp := none
    results := [{ pos := some 1, name := "XSverige", country := "", time := none
                  diff := none, dist := none, dist_pts := none, style_pts := none
                  best_dist := none, best_pts := none, penalties := none }] }

/-!
Theorems.  The dictionary lemmas characterise `dinsert`/`dlookup`, then each
claim is settled in order.
-/

theorem find?_map_update {α : Type} (l : List (String × α)) (k : String) (v : α)
    (h : l.any (fun p => decide (p.1 = k)) = true) :
    (l.map (fun p => if p.1 = k then (k, v) else p)).find? (fun p => decide (p.1 = k)) =
      some (k, v) := by
  induction l with
  | nil => simp at h
  | cons p t ih =>
    by_cases hp : p.1 = k
    · simp [hp, List.find?_cons_of_pos]
    · have ht : t.any (fun p => decide (p.1 = k)) = true := by
        simpa [List.any_cons, hp] using h
      simpa [hp, List.find?_cons_of_neg] using ih ht

theorem find?_map_update_ne {α : Type} (l : List (String × α)) (k k2 : String) (v : α)
    (hne : k2 ≠ k) :
    (l.map (fun p => if p.1 = k then (k, v) else p)).find? (fun p => decide (p.1 = k2)) =
      l.find? (fun p => decide (p.1 = k2)) := by
  induction l with
  | nil => rfl
  | cons p t ih =>
    by_cases hp : p.1 = k
    · have h1 : ¬(k = k2) := fun h => hne h.symm
      have h2 : ¬(p.1 = k2) := by rw [hp]; exact h1
      simp [hp, List.find?_cons_of_neg, h1, h2, ih]
    · by_cases hq : p.1 = k2
      · rw [List.map_cons, if_neg hp, List.find?_cons_of_pos _ (by simp [hq]),
          List.find?_cons_of_pos _ (by simp [hq])]
      · rw [List.map_cons, if_neg hp, List.find?_cons_of_neg _ (by simp [hq]),
          List.find?_cons_of_neg _ (by simp [hq]), ih]

theorem dlookup_dinsert_self {α : Type} (l : List (String × α)) (k : String) (v : α) :
    dlookup (dinsert l k v) k = some v := by
  unfold dinsert dlookup
  by_cases h : l.any (fun p => decide (p.1 = k)) = true
  · rw [if_pos h, find?_map_update l k v h]
    rfl
  · rw [if_neg h, List.find?_append]
    have hn : l.find? (fun p => decide (p.1 = k)) = none := by
      rw [List.find?_eq_none]
      intro x hx
      simp only [decide_eq_true_eq]
      intro hk
      exact h (List.any_eq_true.mpr ⟨x, hx, by simp [hk]⟩)
    rw [hn]
    simp [List.find?]

theorem dlookup_dinsert_ne {α : Type} (l : List (String × α)) (k k2 : String) (v : α)
    (hne : k2 ≠ k) :
    dlookup (dinsert l k v) k2 = dlookup l k2 := by
  unfold dinsert dlookup
  by_cases h : l.any (fun p => decide (p.1 = k)) = true
  · rw [if_pos h, find?_map_update_ne l k k2 v hne]
  · rw [if_neg h, List.find?_append]
    have h1 : ¬(k = k2) := fun h2 => hne h2.symm
    have hn : ([(k, v)] : List (String × α)).find? (fun p => decide (p.1 = k2)) = none := by
      simp [List.find?, h1]
    rw [hn]
    cases l.find? (fun p => decide (p.1 = k2)) <;> rfl

theorem overlay_lookup (l : List Entity) (acc : List (String × Entity)) (k : String) :
    dlookup (l.foldl (fun acc m => dinsert acc (match_key m) m) acc) k =
      (l.reverse.find? (fun m => decide (match_key m = k))).or (dlookup acc k) := by
  induction l generalizing acc with
  | nil => simp
  | cons m t ih =>
    rw [List.foldl_cons, ih, List.reverse_cons, List.find?_append]
    by_cases hk : match_key m = k
    · have h2 : ([m].find? (fun x => decide (match_key x = k))) = some m := by
        simp [List.find?, hk]
      rw [h2, hk, dlookup_dinsert_self]
      cases t.reverse.find? (fun x => decide (match_key x = k)) <;> rfl
    · have h2 : ([m].find? (fun x => decide (match_key x = k))) = none := by
        simp [List.find?, hk]
      rw [h2, dlookup_dinsert_ne _ _ _ _ (fun h => hk h.symm)]
      cases t.reverse.find? (fun x => decide (match_key x = k)) <;> rfl

theorem seed_lookup (att nk : List String) (p : List Entity) (acc : List (String × Entity))
    (k : String) :
    dlookup (p.foldl (seedStep att nk) acc) k =
      if att ≠ [] ∧ k ∈ att ∧ k ∉ nk then dlookup acc k
      else (p.reverse.find? (fun m => decide (match_key m = k))).or (dlookup acc k) := by
  induction p generalizing acc with
  | nil =>
    split
    · rfl
    · simp
  | cons m t ih =>
    rw [List.foldl_cons]
    show dlookup (t.foldl (seedStep att nk) (seedStep att nk acc m)) k = _
    rw [ih]
    unfold seedStep
    rw [List.reverse_cons, List.find?_append]
    by_cases hk : match_key m = k
    · have h2 : ([m].find? (fun x => decide (match_key x = k))) = some m := by
        simp [List.find?, hk]
      rw [h2]
      by_cases hd : att ≠ [] ∧ match_key m ∈ att ∧ match_key m ∉ nk
      · have hdk : att ≠ [] ∧ k ∈ att ∧ k ∉ nk := hk ▸ hd
        rw [if_pos hd, if_pos hdk, if_pos hdk]
      · have hdk : ¬(att ≠ [] ∧ k ∈ att ∧ k ∉ nk) := hk ▸ hd
        rw [if_neg hd, if_neg hdk, if_neg hdk, hk, dlookup_dinsert_self]
        cases t.reverse.find? (fun x => decide (match_key x = k)) <;> rfl
    · have h2 : ([m].find? (fun x => decide (match_key x = k))) = none := by
        simp [List.find?, hk]
      rw [h2]
      by_cases hd : att ≠ [] ∧ match_key m ∈ att ∧ match_key m ∉ nk
      · rw [if_pos hd]
        split
        · rfl
        · cases t.reverse.find? (fun x => decide (match_key x = k)) <;> rfl
      · rw [if_neg hd, dlookup_dinsert_ne _ _ _ _ (fun h => hk h.symm)]
        split
        · rfl
        · cases t.reverse.find? (fun x => decide (match_key x = k)) <;> rfl

theorem find?_reverse_of_nodup (l : List Entity) (k : String)
    (h : (l.map match_key).Nodup) :
    l.reverse.find? (fun m => decide (match_key m = k)) =
      l.find? (fun m => decide (match_key m = k)) := by
  induction l with
  | nil => rfl
  | cons m t ih =>
    rw [List.map_cons, List.nodup_cons] at h
    obtain ⟨hm, ht⟩ := h
    rw [List.reverse_cons, List.find?_append]
    by_cases hk : match_key m = k
    · have htn : t.reverse.find? (fun x => decide (match_key x = k)) = none := by
        rw [List.find?_eq_none]
        intro x hx
        simp only [decide_eq_true_eq]
        intro hxk
        exact hm (by
          rw [← hk] at hxk
          exact hxk ▸ List.mem_map_of_mem match_key (List.mem_reverse.mp hx))
      rw [htn, List.find?_cons_of_pos _ (by simp [hk])]
      simp [List.find?, hk]
    · have h2 : ([m].find? (fun x => decide (match_key x = k))) = none := by
        simp [List.find?, hk]
      rw [h2, List.find?_cons_of_neg _ (by simp [hk])]
      cases hres : t.reverse.find? (fun x => decide (match_key x = k)) with
      | none => rw [← ih ht, hres]; rfl
      | some x => rw [← ih ht, hres]; rfl

/-- Claim C1 (amended with key-distinctness hypotheses): for a non-empty
batch, when derived keys are pairwise distinct within the previous list and
within the batch, the merged dictionary maps each key `k` to the batch entity
of that key when one exists; otherwise to nothing when `k` was attempted but
is not a current key (the entry is dropped/retired); otherwise to the previous
entry of that key. -/
theorem merge_lookup_characterization (previous batch : List Entity) (attempted : List String)
    (hb : batch ≠ []) (hp : (previous.map match_key).Nodup)
    -- `hb` mirrors the claim's non-empty-batch premise; the characterisation
    -- of the merged dictionary holds for an empty batch as well.
    (hq : (batch.map match_key).Nodup) (k : String) :
    dlookup (mergedDict previous batch attempted) k =
      match batch.find? (fun m => decide (match_key m = k)) with
      | some m => some m
      | none =>
        if k ∈ attempted ∧ k ∉ new_keys batch then none
        else previous.find? (fun m => decide (match_key m = k)) := by
  unfold mergedDict
  rw [overlay_lookup, seed_lookup, find?_reverse_of_nodup _ _ hq,
    find?_reverse_of_nodup _ _ hp]
  cases hbf : batch.find? (fun m => decide (match_key m = k)) with
  | some m => rfl
  | none =>
    show Option.or none _ = _
    by_cases hc : k ∈ attempted ∧ k ∉ new_keys batch
    · have hc2 : attempted ≠ [] ∧ k ∈ attempted ∧ k ∉ new_keys batch :=
        ⟨List.ne_nil_of_mem hc.1, hc⟩
      rw [if_pos hc2]
      have hnil : dlookup ([] : List (String × Entity)) k = none := rfl
      simp [hc, hnil]
    · have hc2 : ¬(attempted ≠ [] ∧ k ∈ attempted ∧ k ∉ new_keys batch) := by
        intro h
        exact hc h.2
      rw [if_neg hc2]
      simp only [Option.none_or, if_neg hc]
      cases previous.find? (fun m => decide (match_key m = k)) <;> rfl

/-- Witness for C1: the retire scenario of the spec, `previous = {A, B}`,
`attempted = {A, B}`, `current = {A}` — looked up at the key of `B`. -/
theorem merge_lookup_characterization_witness :
    dlookup
        (mergedDict [entA, entB] [entA2]
          ["Ishockey:Herrar:Finland-Sverige", "Ishockey:Herrar:Tre Kronor-USA"])
        "Ishockey:Herrar:Tre Kronor-USA" =
      match
        [entA2].find?
          (fun m => decide (match_key m = "Ishockey:Herrar:Tre Kronor-USA")) with
      | some m => some m
      | none =>
        if "Ishockey:Herrar:Tre Kronor-USA" ∈
              (["Ishockey:Herrar:Finland-Sverige", "Ishockey:Herrar:Tre Kronor-USA"] :
                List String) ∧
            "Ishockey:Herrar:Tre Kronor-USA" ∉ new_keys [entA2] then none
        else
          [entA, entB].find?
            (fun m => decide (match_key m = "Ishockey:Herrar:Tre Kronor-USA")) :=
  merge_lookup_characterization [entA, entB] [entA2]
    ["Ishockey:Herrar:Finland-Sverige", "Ishockey:Herrar:Tre Kronor-USA"]
    (by decide) (by decide) (by decide) "Ishockey:Herrar:Tre Kronor-USA"

/-- Counterexample to C1 as stated: with two batch entities of the same
derived key, the merged result does not contain the first one, so it does not
"contain every current-batch entity under its derived key". -/
theorem merge_duplicate_batch_key_cex :
    match_key entA = match_key entA2 ∧ entA ≠ entA2 ∧
      entA ∉ mergedList [] [entA, entA2] [] := by
  decide

/-- Claim C2: with an empty current batch and non-empty previous data, the
function returns the no-write verdict and writes nothing, whatever the
attempted keys were. -/
theorem outage_preserves_previous (previous : List Entity) (attempted : List String)
    (hp : previous ≠ []) :
    write_if_changed previous [] attempted = ⟨false, none⟩ := by
  unfold write_if_changed
  rw [if_pos ⟨rfl, hp⟩]

/-- Witness for C2: the total-outage example of the spec with
`previous = {A, B}`. -/
theorem outage_preserves_previous_witness :
    write_if_changed [entA, entB] []
        ["Ishockey:Herrar:Finland-Sverige", "Ishockey:Herrar:Tre Kronor-USA"] =
      ⟨false, none⟩ :=
  outage_preserves_previous [entA, entB]
    ["Ishockey:Herrar:Finland-Sverige", "Ishockey:Herrar:Tre Kronor-USA"] (by decide)

/-- Claim C3 (amended): outside the empty-batch guard, the verdict is
"unchanged" exactly when the merged value list equals the previously persisted
list as an ORDERED list (the source compares lists, not value-sets), and the
output is written exactly when the verdict is "changed". -/
theorem change_verdict_list_equality (previous batch : List Entity) (attempted : List String)
    (h : ¬(batch = [] ∧ previous ≠ [])) :
    ((write_if_changed previous batch attempted).changed = false ↔
        mergedList previous batch attempted = previous) ∧
      (write_if_changed previous batch attempted).toWrite =
        (if (write_if_changed previous batch attempted).changed then
          some (mergedList previous batch attempted) else none) := by
  unfold write_if_changed
  rw [if_neg h]
  by_cases he : mergedList previous batch attempted = previous
  · simp [he]
  · simp [he]

/-- Witness for C3: the partial-coverage example, `previous = {A}` updated to
`{A2}` — the verdict is "changed" and the new list is written. -/
theorem change_verdict_list_equality_witness :
    ((write_if_changed [entA] [entA2] ["Ishockey:Herrar:Finland-Sverige"]).changed = false ↔
        mergedList [entA] [entA2] ["Ishockey:Herrar:Finland-Sverige"] = [entA]) ∧
      (write_if_changed [entA] [entA2] ["Ishockey:Herrar:Finland-Sverige"]).toWrite =
        (if (write_if_changed [entA] [entA2] ["Ishockey:Herrar:Finland-Sverige"]).changed then
          some (mergedList [entA] [entA2] ["Ishockey:Herrar:Finland-Sverige"]) else none) :=
  change_verdict_list_equality [entA] [entA2] ["Ishockey:Herrar:Finland-Sverige"] (by decide)

/-- Counterexample to C3 as stated: with a duplicated previous entry the
merged values equal the previous values as a set, yet the verdict is "changed"
(and a write happens), so "unchanged exactly when the value-sets agree" fails
on the code. -/
theorem change_verdict_valueset_cex :
    (write_if_changed [entA, entA] [entA] []).changed = true ∧
      (∀ x : Entity, x ∈ mergedList [entA, entA] [entA] [] ↔ x ∈ [entA, entA]) := by
  constructor
  · decide
  · intro x
    have h : mergedList [entA, entA] [entA] [] = [entA] := by decide
    rw [h]
    constructor
    · intro hx
      simp only [List.mem_singleton] at hx
      simp [hx]
    · intro hx
      have h2 : x = entA := by
        simp only [List.mem_cons, List.not_mem_nil, or_false, or_self] at hx
        exact hx
      simp [h2]

theorem tsUpd_zero (cur : Option Int) : tsUpd cur 0 = cur := by
  cases cur <;> simp [tsUpd]

theorem indRowStep_eventTs (st1 : IndState) (d ra : List (String × String)) :
    (indRowStep st1 d ra).eventTs = st1.eventTs := by
  unfold indRowStep
  split
  · split
    · split <;> rfl
    · rfl
  · rfl

theorem indStep_eventTs (st : IndState) (rec : String) :
    (indStep st rec).eventTs =
      match eligTsOf rec with
      | some v => tsUpd st.eventTs v
      | none => st.eventTs := by
  unfold indStep eligTsOf
  cases hz : dlookup (parse_fields rec).1 "ZAE" with
  | some z => simp [hz]
  | none =>
    cases hae : dlookup (parse_fields rec).1 "AE" with
    | none => simp [hz, hae]
    | some ae =>
      simp only [hz, hae, Option.isSome_none, Bool.false_eq_true, if_false,
        Option.isNone_some, indRowStep_eventTs]
      cases had : pyInt (dgetD (parse_fields rec).1 "AD" "") with
      | none => simp [tsTrack]
      | some v =>
        by_cases hv : v = 0
        · subst hv
          simp [tsTrack, tsUpd_zero]
        · simp [tsTrack, hv]

theorem scan_eventTs (recs : List String) (st : IndState) :
    (recs.foldl indStep st).eventTs =
      (recs.filterMap eligTsOf).foldl tsUpd st.eventTs := by
  induction recs generalizing st with
  | nil => rfl
  | cons rec t ih =>
    rw [List.foldl_cons, ih]
    cases he : eligTsOf rec with
    | none =>
      rw [List.filterMap_cons_none he, indStep_eventTs, he]
    | some v =>
      rw [List.filterMap_cons_some he, List.foldl_cons]
      have hstep : (indStep st rec).eventTs = tsUpd st.eventTs v := by
        rw [indStep_eventTs, he]
      rw [hstep]

theorem foldl_tsUpd_max (l : List Int) (acc : Option Int) (t : Int)
    (hnz : ∀ u ∈ l, u ≠ 0) (h : l.foldl tsUpd acc = some t) :
    (∀ u ∈ l, u ≤ t) ∧ (t ∈ l ∨ acc = some t) ∧ (∀ a, acc = some a → a ≤ t) := by
  induction l generalizing acc with
  | nil =>
    simp only [List.foldl_nil] at h
    exact ⟨by simp, Or.inr h, fun a ha => by
      rw [h] at ha
      exact le_of_eq (Option.some.inj ha).symm⟩
  | cons v rest ih =>
    rw [List.foldl_cons] at h
    have hv : v ≠ 0 := hnz v (List.mem_cons_self v rest)
    have hrest : ∀ u ∈ rest, u ≠ 0 := fun u hu => hnz u (List.mem_cons_of_mem _ hu)
    obtain ⟨hb, hmem, hacc⟩ := ih (tsUpd acc v) hrest h
    have key : ∃ a2, tsUpd acc v = some a2 ∧ v ≤ a2 ∧ (a2 = v ∨ acc = some a2) ∧
        (∀ b0, acc = some b0 → b0 ≤ a2) := by
      cases acc with
      | none => exact ⟨v, by simp [tsUpd, hv], le_refl v, Or.inl rfl, by simp⟩
      | some b =>
        by_cases hbv : b < v
        · refine ⟨v, by simp [tsUpd, hv, hbv], le_refl v, Or.inl rfl, fun b0 hb0 => ?_⟩
          rw [← Option.some.inj hb0]
          exact le_of_lt hbv
        · refine ⟨b, by simp [tsUpd, hbv], le_of_not_lt hbv, Or.inr rfl, fun b0 hb0 => ?_⟩
          rw [← Option.some.inj hb0]
    obtain ⟨a2, ha2, hva2, hcase, hub⟩ := key
    have ha2t : a2 ≤ t := hacc a2 ha2
    refine ⟨?_, ?_, ?_⟩
    · intro u hu
      rcases List.mem_cons.mp hu with h1 | h1
      · exact h1 ▸ le_trans hva2 ha2t
      · exact hb u h1
    · rcases hmem with h1 | h1
      · exact Or.inl (List.mem_cons_of_mem _ h1)
      · rw [h1] at ha2
        have hta2 : t = a2 := Option.some.inj ha2
        rcases hcase with h2 | h2
        · exact Or.inl (by rw [hta2, h2]; exact List.mem_cons_self v rest)
        · exact Or.inr (by rw [h2, hta2])
    · intro a ha
      exact le_trans (hub a ha) ha2t

theorem eligTsOf_ne_zero (rec : String) (u : Int) (h : eligTsOf rec = some u) : u ≠ 0 := by
  unfold eligTsOf at h
  split at h
  · exact absurd h (by simp)
  · split at h
    · exact absurd h (by simp)
    · split at h
      · split at h
        · intro hu
          rw [← Option.some.inj h] at hu
          simp_all
        · exact absurd h (by simp)
      · exact absurd h (by simp)

theorem mem_eligTimestamps_ne_zero (data : String) (u : Int)
    (h : u ∈ eligTimestamps data) : u ≠ 0 := by
  unfold eligTimestamps at h
  rw [List.mem_filterMap] at h
  obtain ⟨rec, _, hrec⟩ := h
  exact eligTsOf_ne_zero rec u hrec

/-- Claim C4: the tracked run-level timestamp is the maximum over the
timestamps the scan sees (it is one of them and bounds them all), and whenever
it is present and strictly below `MIN_TIMESTAMP` the individual decoder
returns no entity — whether or not finished rows were decoded. -/
theorem stale_timestamp_rejection (data : String) (entry : FeedEntry) (t : Int)
    (h : (indScan data).eventTs = some t) :
    (t ∈ eligTimestamps data ∧ ∀ u ∈ eligTimestamps data, u ≤ t) ∧
      (t < MIN_TIMESTAMP → parse_individual_feed data entry = .ok none) := by
  have hfold : (eligTimestamps data).foldl tsUpd none = some t := by
    unfold indScan at h
    rw [scan_eventTs] at h
    exact h
  have hnz : ∀ u ∈ eligTimestamps data, u ≠ 0 :=
    fun u hu => mem_eligTimestamps_ne_zero data u hu
  obtain ⟨hb, hmem, _⟩ := foldl_tsUpd_max (eligTimestamps data) none t hnz hfold
  have htmem : t ∈ eligTimestamps data := by
    rcases hmem with h1 | h1
    · exact h1
    · exact absurd h1 (by simp)
  refine ⟨⟨htmem, hb⟩, ?_⟩
  intro hlt
  have htz : t ≠ 0 := hnz t htmem
  unfold parse_individual_feed
  by_cases h1 : ¬(indScan data).hasFinished ∨ indAthletes data = []
  · rw [if_pos h1]
  · rw [if_neg h1]
    have hstale : staleTs (indScan data).eventTs = true := by
      rw [h]
      simp [staleTs, htz, hlt]
    simp only [hstale, if_true]

/-- Witness for C4: `exStaleData` decodes a finished row but carries only the
old timestamp 100, so the decoder returns no entity. -/
theorem stale_timestamp_rejection_witness :
    ((100 : Int) ∈ eligTimestamps exStaleData ∧
        ∀ u ∈ eligTimestamps exStaleData, u ≤ (100 : Int)) ∧
      ((100 : Int) < MIN_TIMESTAMP →
        parse_individual_feed exStaleData exIndEntry = .ok none) :=
  stale_timestamp_rejection exStaleData exIndEntry 100 (by decide)

theorem mem_insByPos (x z : Athlete) (l : List Athlete) :
    z ∈ insByPos x l ↔ z = x ∨ z ∈ l := by
  induction l with
  | nil => simp [insByPos]
  | cons y ys ih =>
    unfold insByPos
    split
    · simp [List.mem_cons]
    · simp only [List.mem_cons, ih]
      tauto

theorem insByPos_perm (x : Athlete) (l : List Athlete) :
    (insByPos x l).Perm (x :: l) := by
  induction l with
  | nil => exact List.Perm.refl _
  | cons y ys ih =>
    unfold insByPos
    split
    · exact List.Perm.refl _
    · exact (ih.cons y).trans (List.Perm.swap x y ys)

theorem sortByPos_perm (l : List Athlete) : (sortByPos l).Perm l := by
  suffices h : ∀ (l2 acc : List Athlete),
      (l2.foldl (fun acc x => insByPos x acc) acc).Perm (l2 ++ acc) by
    simpa using h l []
  intro l2
  induction l2 with
  | nil => intro acc; simp
  | cons x xs ih =>
    intro acc
    rw [List.foldl_cons]
    have h1 := ih (insByPos x acc)
    have h2 : (xs ++ insByPos x acc).Perm (xs ++ x :: acc) :=
      List.Perm.append_left xs (insByPos_perm x acc)
    have h3 : (xs ++ x :: acc).Perm (x :: (xs ++ acc)) := List.perm_middle
    exact h1.trans (h2.trans h3)

theorem insByPos_sorted (x : Athlete) (l : List Athlete)
    (h : l.Pairwise (fun a b => posKey a ≤ posKey b)) :
    (insByPos x l).Pairwise (fun a b => posKey a ≤ posKey b) := by
  induction l with
  | nil => simp [insByPos]
  | cons y ys ih =>
    rw [List.pairwise_cons] at h
    obtain ⟨hy, hys⟩ := h
    unfold insByPos
    split
    · rename_i hlt
      rw [List.pairwise_cons]
      refine ⟨?_, List.pairwise_cons.mpr ⟨hy, hys⟩⟩
      intro z hz
      rcases List.mem_cons.mp hz with h1 | h1
      · rw [h1]; exact le_of_lt hlt
      · exact le_trans (le_of_lt hlt) (hy z h1)
    · rename_i hnlt
      rw [List.pairwise_cons]
      refine ⟨?_, ih hys⟩
      intro z hz
      rcases (mem_insByPos x z ys).mp hz with h1 | h1
      · rw [h1]; exact le_of_not_lt hnlt
      · exact hy z h1

theorem sortByPos_sorted (l : List Athlete) :
    (sortByPos l).Pairwise (fun a b => posKey a ≤ posKey b) := by
  suffices h : ∀ (l2 acc : List Athlete),
      acc.Pairwise (fun a b => posKey a ≤ posKey b) →
      (l2.foldl (fun acc x => insByPos x acc) acc).Pairwise
        (fun a b => posKey a ≤ posKey b) by
    exact h l [] (by simp)
  intro l2
  induction l2 with
  | nil => intro acc hacc; simpa using hacc
  | cons x xs ih =>
    intro acc hacc
    rw [List.foldl_cons]
    exact ih _ (insByPos_sorted x acc hacc)

theorem mem_dedupGo_not_seen (seen : List String) (l : List Athlete) (x : Athlete)
    (h : x ∈ dedupGo seen l) : ckey x ∉ seen := by
  induction l generalizing seen with
  | nil => simp [dedupGo] at h
  | cons a rest ih =>
    unfold dedupGo at h
    split at h
    · exact ih seen h
    · rcases List.mem_cons.mp h with h1 | h1
      · rename_i hnot
        rw [h1]; exact hnot
      · intro hmem
        exact (ih _ h1) (List.mem_cons_of_mem _ hmem)

theorem dedupGo_pairwise (seen : List String) (l : List Athlete) :
    (dedupGo seen l).Pairwise (fun a b => ckey a ≠ ckey b) := by
  induction l generalizing seen with
  | nil => simp [dedupGo]
  | cons a rest ih =>
    unfold dedupGo
    split
    · exact ih seen
    · rw [List.pairwise_cons]
      refine ⟨?_, ih _⟩
      intro z hz he
      exact (mem_dedupGo_not_seen _ _ _ hz) (by rw [← he]; exact List.mem_cons_self _ _)

/-- Claim C5 (amended): whenever the individual decoder emits an entity, its
results are exactly the podium rows united with the home-federation rows,
de-duplicated by the CONCATENATED `name ++ country` string (podium precedence,
as in the source) rather than by the (name, country) pair, sorted ascending by
position, non-empty — and hence no two rows share the same (name, country)
pair. -/
theorem results_filter_characterization (data : String) (entry : FeedEntry)
    (r : IndividualResult)
    (h : parse_individual_feed data entry = .ok (some (.individual r))) :
    r.results = (sortByPos (dedupConcat (podiumOf data ++ sweOf data))).map toRow ∧
      r.results ≠ [] ∧
      r.results.Pairwise (fun x y => ¬(x.name = y.name ∧ x.country = y.country)) ∧
      r.results.Pairwise (fun x y => x.pos.getD 999 ≤ y.pos.getD 999) := by
  have hkey : r.results = (sortByPos (dedupConcat (podiumOf data ++ sweOf data))).map toRow ∧
      ¬(sortByPos (dedupConcat (podiumOf data ++ sweOf data)) = []) := by
    unfold parse_individual_feed at h
    split at h
    · exact absurd h (by simp)
    · split at h
      · exact absurd h (by simp)
      · split at h
        · exact absurd h (by simp)
        · split at h
          · exact absurd h (by simp)
          · rename_i hne
            simp only [Except.ok.injEq, Option.some.injEq, Entity.individual.injEq] at h
            exact ⟨by rw [← h], hne⟩
  obtain ⟨hres, hne⟩ := hkey
  have hpw : (sortByPos (dedupConcat (podiumOf data ++ sweOf data))).Pairwise
      (fun a b => ckey a ≠ ckey b) := by
    have h1 := dedupGo_pairwise [] (podiumOf data ++ sweOf data)
    have h2 := sortByPos_perm (dedupConcat (podiumOf data ++ sweOf data))
    exact (h2.pairwise_iff (fun hxy => Ne.symm hxy)).mpr h1
  refine ⟨hres, ?_, ?_, ?_⟩
  · rw [hres]
    intro hc
    exact hne (by simpa using hc)
  · rw [hres]
    rw [List.pairwise_map]
    refine hpw.imp ?_
    intro a b hk hc
    exact hk (by
      unfold ckey
      rw [show a.name = b.name from hc.1, show a.country = b.country from hc.2])
  · rw [hres]
    rw [List.pairwise_map]
    exact (sortByPos_sorted _).imp (fun hab => hab)

/-- Witness for C5: the decode of `exFreshData` instantiates the amended
characterisation. -/
theorem results_filter_characterization_witness :
    exFreshResult.results =
        (sortByPos (dedupConcat (podiumOf exFreshData ++ sweOf exFreshData))).map toRow ∧
      exFreshResult.results ≠ [] ∧
      exFreshResult.results.Pairwise
        (fun x y => ¬(x.name = y.name ∧ x.country = y.country)) ∧
      exFreshResult.results.Pairwise (fun x y => x.pos.getD 999 ≤ y.pos.getD 999) :=
  results_filter_characterization exFreshData exIndEntry exFreshResult (by decide)

/-- Counterexample to C5 as stated: on `exCollideData` the emitted results are
NOT the pair-keyed de-duplication of podium and home rows — the source merges
by concatenated key, which here collapses two distinct (name, country)
pairs. -/
theorem results_dedup_concat_cex :
    parse_individual_feed exCollideData exIndEntry =
        .ok (some (.individual exCollideResult)) ∧
      exCollideResult.results ≠
        (sortByPos (dedupPair (podiumOf exCollideData ++ sweOf exCollideData))).map toRow := by
  decide

theorem dinsert_of_not_mem {α : Type} (l : List (String × α)) (k : String) (v : α)
    (h : ∀ p ∈ l, p.1 ≠ k) : dinsert l k v = l ++ [(k, v)] := by
  unfold dinsert
  rw [if_neg]
  intro hc
  rw [List.any_eq_true] at hc
  obtain ⟨p, hp, hdec⟩ := hc
  exact h p hp (of_decide_eq_true hdec)

theorem fieldStep_foldl (toks : List String) (d0 : List (String × String))
    (ra0 rb0 : List String)
    (hnd : ((d0 ++ (toks.filterMap splitKV).filter
        (fun p => decide (p.1 ≠ "RAA" ∧ p.1 ≠ "RAB"))).map (fun p => p.1)).Nodup) :
    toks.foldl fieldStep (d0, ra0, rb0) =
      (d0 ++ (toks.filterMap splitKV).filter (fun p => decide (p.1 ≠ "RAA" ∧ p.1 ≠ "RAB")),
       ra0 ++ ((toks.filterMap splitKV).filter (fun p => decide (p.1 = "RAA"))).map
         (fun p => p.2),
       rb0 ++ ((toks.filterMap splitKV).filter (fun p => decide (p.1 = "RAB"))).map
         (fun p => p.2)) := by
  induction toks generalizing d0 ra0 rb0 with
  | nil => simp
  | cons tok rest ih =>
    rw [List.foldl_cons]
    cases hkv : splitKV tok with
    | none =>
      rw [List.filterMap_cons_none hkv] at hnd ⊢
      have hstep : fieldStep (d0, ra0, rb0) tok = (d0, ra0, rb0) := by
        unfold fieldStep
        rw [hkv]
      rw [hstep]
      exact ih d0 ra0 rb0 hnd
    | some kv =>
      obtain ⟨k, v⟩ := kv
      rw [List.filterMap_cons_some hkv] at hnd ⊢
      by_cases hA : k = "RAA"
      · subst hA
        have hstep : fieldStep (d0, ra0, rb0) tok = (d0, ra0 ++ [v], rb0) := by
          unfold fieldStep
          rw [hkv]
          simp
        rw [hstep,
          List.filter_cons_of_neg (by simp),
          List.filter_cons_of_pos (by simp),
          List.filter_cons_of_neg (by simp)]
        rw [List.filter_cons_of_neg (by simp)] at hnd
        rw [ih d0 (ra0 ++ [v]) rb0 hnd]
        simp
      · by_cases hB : k = "RAB"
        · subst hB
          have hstep : fieldStep (d0, ra0, rb0) tok = (d0, ra0, rb0 ++ [v]) := by
            unfold fieldStep
            rw [hkv]
            simp
          rw [hstep,
            List.filter_cons_of_neg (by simp),
            List.filter_cons_of_neg (by simp),
            List.filter_cons_of_pos (by simp)]
          rw [List.filter_cons_of_neg (by simp)] at hnd
          rw [ih d0 ra0 (rb0 ++ [v]) hnd]
          simp
        · have hstep : fieldStep (d0, ra0, rb0) tok = (dinsert d0 k v, ra0, rb0) := by
            unfold fieldStep
            rw [hkv]
            simp [hA, hB]
          rw [hstep,
            List.filter_cons_of_pos (by simp [hA, hB]),
            List.filter_cons_of_neg (by simp [hA]),
            List.filter_cons_of_neg (by simp [hB])]
          rw [List.filter_cons_of_pos (by simp [hA, hB])] at hnd
          have hk0 : ∀ p ∈ d0, p.1 ≠ k := by
            intro p hp he
            have h2 : (d0.map (fun p => p.1)).Nodup ∧
                ((d0.map (fun p => p.1)).Disjoint
                  (((k, v) :: (rest.filterMap splitKV).filter
                    (fun p => decide (p.1 ≠ "RAA" ∧ p.1 ≠ "RAB"))).map (fun p => p.1))) := by
              rw [List.map_append, List.nodup_append] at hnd
              exact ⟨hnd.1, hnd.2.2⟩
            exact h2.2 (List.mem_map_of_mem _ hp) (by rw [he]; exact List.mem_cons_self _ _)
          have hnd2 : (((d0 ++ [(k, v)]) ++ (rest.filterMap splitKV).filter
              (fun p => decide (p.1 ≠ "RAA" ∧ p.1 ≠ "RAB"))).map (fun p => p.1)).Nodup := by
            simpa [List.append_assoc] using hnd
          rw [dinsert_of_not_mem d0 k v hk0, ih (d0 ++ [(k, v)]) ra0 rb0 hnd2]
          simp

theorem filter_three_partition (l : List (String × String)) :
    (l.filter (fun p => decide (p.1 ≠ "RAA" ∧ p.1 ≠ "RAB"))).length +
      (l.filter (fun p => decide (p.1 = "RAA"))).length +
      (l.filter (fun p => decide (p.1 = "RAB"))).length = l.length := by
  induction l with
  | nil => rfl
  | cons p t ih =>
    by_cases h1 : p.1 = "RAA"
    · rw [List.filter_cons_of_neg (by rw [h1]; decide),
        List.filter_cons_of_pos (by rw [h1]; decide),
        List.filter_cons_of_neg (by rw [h1]; decide)]
      simp only [List.length_cons]
      omega
    · by_cases h2 : p.1 = "RAB"
      · rw [List.filter_cons_of_neg (by rw [h2]; decide),
          List.filter_cons_of_neg (by rw [h2]; decide),
          List.filter_cons_of_pos (by rw [h2]; decide)]
        simp only [List.length_cons]
        omega
      · rw [List.filter_cons_of_pos (by simp [h1, h2]),
          List.filter_cons_of_neg (by simp [h1]),
          List.filter_cons_of_neg (by simp [h2])]
        simp only [List.length_cons]
        omega

theorem length_filterMap_eq_filter_isSome {α β : Type} (f : α → Option β) (l : List α) :
    (l.filterMap f).length = (l.filter (fun x => (f x).isSome)).length := by
  induction l with
  | nil => rfl
  | cons a t ih =>
    cases hf : f a with
    | none =>
      rw [List.filterMap_cons_none hf, List.filter_cons_of_neg (by simp [hf]), ih]
    | some b =>
      rw [List.filterMap_cons_some hf, List.filter_cons_of_pos (by simp [hf])]
      simp [ih]

theorem sepTokens_length (record : String) :
    (sepTokens record).length = ((pySplit '¬' record).filter hasSep).length := by
  unfold sepTokens
  have h := length_filterMap_eq_filter_isSome splitKV (pySplit '¬' record)
  simpa [hasSep] using h

/-- Claim C6 (amended): provided the record's scalar-bound keys (the
separator-bearing tokens outside the two reserved keys) are pairwise distinct
— the format invariant "a key maps to at most one scalar value per record" —
the scalar map is exactly those tokens split at the first separator, each
reserved-key token is appended in order to its side-list, and the scalar map
plus side-lists hold exactly N entries, where N counts the tokens containing
the separator; the M separator-less tokens contribute nothing. -/
theorem tokenizer_entry_count (record : String)
    (hnd : ((scalarPairs record).map (fun p => p.1)).Nodup) :
    parse_fields record =
      (scalarPairs record,
       ((sepTokens record).filter (fun p => decide (p.1 = "RAA"))).map (fun p => p.2),
       ((sepTokens record).filter (fun p => decide (p.1 = "RAB"))).map (fun p => p.2)) ∧
      (parse_fields record).1.length + (parse_fields record).2.1.length +
          (parse_fields record).2.2.length = (sepTokens record).length ∧
      (sepTokens record).length = ((pySplit '¬' record).filter hasSep).length := by
  have hmain := fieldStep_foldl (pySplit '¬' record) [] [] []
    (by simpa [scalarPairs, sepTokens] using hnd)
  have heq : parse_fields record =
      (scalarPairs record,
       ((sepTokens record).filter (fun p => decide (p.1 = "RAA"))).map (fun p => p.2),
       ((sepTokens record).filter (fun p => decide (p.1 = "RAB"))).map (fun p => p.2)) := by
    unfold parse_fields scalarPairs sepTokens
    simpa using hmain
  refine ⟨heq, ?_, sepTokens_length record⟩
  rw [heq]
  have hpart := filter_three_partition (sepTokens record)
  simp only [scalarPairs]
  simpa [List.length_map] using hpart

/-- Witness for C6: a record with one scalar token, one malformed token, one
`RAA` and one `RAB` token and a second scalar token. -/
theorem tokenizer_entry_count_witness :
    parse_fields "AA÷1¬junk¬RAA÷7¬RAB÷x¬BB÷2" =
      (scalarPairs "AA÷1¬junk¬RAA÷7¬RAB÷x¬BB÷2",
       ((sepTokens "AA÷1¬junk¬RAA÷7¬RAB÷x¬BB÷2").filter
         (fun p => decide (p.1 = "RAA"))).map (fun p => p.2),
       ((sepTokens "AA÷1¬junk¬RAA÷7¬RAB÷x¬BB÷2").filter
         (fun p => decide (p.1 = "RAB"))).map (fun p => p.2)) ∧
      (parse_fields "AA÷1¬junk¬RAA÷7¬RAB÷x¬BB÷2").1.length +
          (parse_fields "AA÷1¬junk¬RAA÷7¬RAB÷x¬BB÷2").2.1.length +
          (parse_fields "AA÷1¬junk¬RAA÷7¬RAB÷x¬BB÷2").2.2.length =
        (sepTokens "AA÷1¬junk¬RAA÷7¬RAB÷x¬BB÷2").length ∧
      (sepTokens "AA÷1¬junk¬RAA÷7¬RAB÷x¬BB÷2").length =
        ((pySplit '¬' "AA÷1¬junk¬RAA÷7¬RAB÷x¬BB÷2").filter hasSep).length :=
  tokenizer_entry_count "AA÷1¬junk¬RAA÷7¬RAB÷x¬BB÷2" (by decide)

/-- Counterexample to C6 as stated: a record with two separator-bearing tokens
that share a scalar key yields one combined entry, not two — the dictionary
assignment overwrites. -/
theorem tokenizer_duplicate_key_cex :
    ((pySplit '¬' "AB÷1¬AB÷2").filter hasSep).length = 2 ∧
      (parse_fields "AB÷1¬AB÷2").1.length + (parse_fields "AB÷1¬AB÷2").2.1.length +
        (parse_fields "AB÷1¬AB÷2").2.2.length = 1 := by
  decide

theorem team_loop_status (entry : FeedEntry) :
    ∀ (n : Nat) (l : List String), l.length ≤ n →
      ∀ m ∈ team_loop entry l, m.status = "finished" := by
  intro n
  induction n with
  | zero =>
    intro l hl m hm
    have hnil : l = [] := List.length_eq_zero.mp (Nat.le_zero.mp hl)
    rw [hnil] at hm
    simp only [team_loop] at hm
    exact absurd hm (List.not_mem_nil m)
  | succ n ih =>
    intro l hl m hm
    match l with
    | [] =>
      simp only [team_loop] at hm
      exact absurd hm (List.not_mem_nil m)
    | [rec] =>
      simp only [team_loop] at hm
      split at hm
      · exact absurd hm (List.not_mem_nil m)
      · split at hm
        · rename_i hfin
          rw [List.mem_singleton] at hm
          rw [hm]
          exact hfin
        · exact absurd hm (List.not_mem_nil m)
    | rec :: rec2 :: rest2 =>
      simp only [team_loop] at hm
      have hlen2 : (rec2 :: rest2).length ≤ n := by
        simp only [List.length_cons] at hl ⊢
        omega
      have hlen3 : rest2.length ≤ n := by
        simp only [List.length_cons] at hl
        omega
      split at hm
      · exact ih _ hlen2 m hm
      · split at hm
        · rw [List.mem_append] at hm
          rcases hm with h1 | h1
          · split at h1
            · rename_i hfin
              rw [List.mem_singleton] at h1
              rw [h1]
              exact hfin
            · exact absurd h1 (List.not_mem_nil m)
          · exact ih _ hlen2 m h1
        · rw [List.mem_append] at hm
          rcases hm with h1 | h1
          · split at h1
            · rename_i hfin
              rw [List.mem_singleton] at h1
              rw [h1]
              exact hfin
            · exact absurd h1 (List.not_mem_nil m)
          · exact ih _ hlen3 m h1

/-- Claim C7: the team decoder maps status code 3 to finished, 2 to live and
anything else to scheduled; it strips the trailing gender suffix from the
decoded team name (the record with home "Finland D" and scores 2/1 decodes to
home "Finland", home_score 2, away_score 1, finished); and every match the
decoder emits is finished. -/
theorem team_decoder_status :
    (∀ (data : String) (entry : FeedEntry) (m : TeamMatch),
        m ∈ parse_team_feed data entry → m.status = "finished") ∧
      parse_team_feed exTeamData exEntry = [exTeamMatch] ∧
      status_of "3" = "finished" ∧ status_of "2" = "live" ∧
      (∀ c : String, c ≠ "3" → c ≠ "2" → status_of c = "scheduled") := by
  refine ⟨?_, by decide, rfl, rfl, ?_⟩
  · intro data entry m hm
    exact team_loop_status entry ((pySplit '~' data).drop 2).length _ (le_refl _) m hm
  · intro c h3 h2
    unfold status_of
    rw [if_neg h3, if_neg h2]

/-- Witness for C7: the decoded example match is finished, and an unknown
status code maps to scheduled. -/
theorem team_decoder_status_witness :
    exTeamMatch.status = "finished" ∧ status_of "X" = "scheduled" :=
  ⟨team_decoder_status.1 exTeamData exEntry exTeamMatch (by decide),
   team_decoder_status.2.2.2.2 "X" (by decide) (by decide)⟩

/-- Claim C8: the two name-reconstruction round-trip examples of the spec. -/
theorem name_reconstruction_examples :
    full_name "Klaebo J. H." "klaebo-johannes-hoesflot" = "Johannes Hösflot Kläbo" ∧
      full_name "Smith" "" = "Smith" := by
  decide

/-- Claim C9 (amended): for a non-empty label with at least one detected
initial and a slug with at least two hyphen-separated segments, the
reconstructor computes the spec's split/title-case formula, except that when
the given-name part joins to the empty string (the taken slug segment is
empty, e.g. a trailing hyphen) the surname alone is returned without a
leading space. -/
theorem name_reconstruction_algorithm (ae wu : String)
    (h1 : ae ≠ "") (h2 : wu ≠ "") (h3 : 2 ≤ (pySplit '-' wu).length)
    (h4 : 1 ≤ count_initials ae) :
    full_name ae wu = specNameAmended ae wu := by
  unfold full_name specNameAmended
  rw [if_neg (by simp [h1, h2]), if_neg (by omega), if_neg (by omega)]

/-- Witness for C9: the Kläbo example instantiates the amended algorithm. -/
theorem name_reconstruction_algorithm_witness :
    full_name "Klaebo J. H." "klaebo-johannes-hoesflot" =
      specNameAmended "Klaebo J. H." "klaebo-johannes-hoesflot" :=
  name_reconstruction_algorithm "Klaebo J. H." "klaebo-johannes-hoesflot"
    (by decide) (by decide) (by decide) (by decide)

/-- Counterexample to C9 as stated: the label "A B." (one initial) with slug
"x-" satisfies every premise of the claim, yet the code returns "X" while the
claim's "given name followed by surname joined with a space" formula gives
" X". -/
theorem name_reconstruction_empty_given_cex :
    ("A B." : String) ≠ "" ∧ ("x-" : String) ≠ "" ∧ 2 ≤ (pySplit '-' "x-").length ∧
      1 ≤ count_initials "A B." ∧
      full_name "A B." "x-" = "X" ∧ specName "A B." "x-" = " X" ∧
      full_name "A B." "x-" ≠ specName "A B." "x-" := by
  decide

/-- Claim C10 (code bug): on a record whose position side-list value is a
non-empty non-numeric string, `_int` yields the Python value `None` (the
sentinel 999 is only used for an EMPTY position string), and the decoder
raises `TypeError` at the position sort / podium comparison instead of
reporting absence-of-result. -/
theorem individual_decoder_position_type_error :
    parse_individual_feed exBadPosData exIndEntry = .error () := by
  decide
